import Mathlib

/-!
Verification of the contextual insight retrieval system.

Shallow embedding notes:
* All Python strings are modelled as `List Char` (`Str`).
* Python `datetime` values are modelled at day granularity as `Int`
  (`(a - b).days` becomes integer subtraction).  `datetime.isoformat` /
  `datetime.fromisoformat` form an exact bijection in Python, so the
  serialized timestamp column is carried as the `Int` itself.
* SQLite `REAL` columns and Python float effectiveness scores are modelled
  as `Rat` (every float is a rational); the temporal weight, which the code
  computes with `np.exp`, is modelled in `ℝ`.
* SQLite `LIKE` is modelled faithfully, including `%` / `_` wildcards and
  its default ASCII case-insensitivity.
-/

abbrev Str := List Char

def str (s : String) : Str := s.toList

/-- ASCII lowercasing of a string, as used by Python `str.lower()` on the
ASCII inputs appearing in this system and by SQLite `LIKE`. -/
def lowerStr (s : Str) : Str := s.map Char.toLower

/-- Python substring test `needle in hay`. -/
def isSubstr (needle hay : Str) : Bool :=
  hay.tails.any (fun t => needle.isPrefixOf t)

theorem isSubstr_iff (n h : Str) :
    isSubstr n h = true ↔ ∃ a b, h = a ++ n ++ b := by
  unfold isSubstr
  rw [List.any_eq_true]
  constructor
  · rintro ⟨t, ht, hp⟩
    rw [List.mem_tails] at ht
    rw [List.isPrefixOf_iff_prefix] at hp
    obtain ⟨b, hb⟩ := hp
    obtain ⟨a, ha⟩ := ht
    exact ⟨a, b, by rw [← ha, ← hb, List.append_assoc]⟩
  · rintro ⟨a, b, rfl⟩
    refine ⟨n ++ b, ?_, ?_⟩
    · rw [List.mem_tails]
      exact ⟨a, by rw [List.append_assoc]⟩
    · rw [List.isPrefixOf_iff_prefix]
      exact ⟨b, rfl⟩

theorem isSubstr_self_append (n b : Str) : isSubstr n (n ++ b) = true := by
  rw [isSubstr_iff]
  exact ⟨[], b, by simp⟩

theorem mem_of_isSubstr {n h : Str} (hs : isSubstr n h = true) :
    ∀ c ∈ n, c ∈ h := by
  rw [isSubstr_iff] at hs
  obtain ⟨a, b, rfl⟩ := hs
  intro c hc
  simp [hc]

/-- SQLite `LIKE` pattern matching: `%` matches any sequence, `_` any single
character, and other characters match up to ASCII case. -/
def likeMatch : Str → Str → Bool
  | [], s => s.isEmpty
  | p :: ps, s =>
    if p = '%' then s.tails.any (fun t => likeMatch ps t)
    else
      match s with
      | [] => false
      | c :: s' =>
        if p = '_' then likeMatch ps s'
        else (Char.toLower p == Char.toLower c) && likeMatch ps s'

example : likeMatch (str "%N%") (str "AN") = true := by decide
example : likeMatch (str "%,N,%") (str ",AN,") = false := by decide
example : likeMatch (str "%,N,%") (str ",N,") = true := by decide
example : likeMatch (str "a_c") (str "aXc") = true := by decide
example : likeMatch (str "ab") (str "AB") = true := by decide

theorem likeMatch_percent (ps : Str) (s : Str) :
    likeMatch ('%' :: ps) s = s.tails.any (fun t => likeMatch ps t) := by
  simp [likeMatch]

theorem likeMatch_cons_nil {p : Char} (h : p ≠ '%') (ps : Str) :
    likeMatch (p :: ps) [] = false := by
  simp [likeMatch, h]

theorem likeMatch_underscore (ps : Str) (c : Char) (s : Str) :
    likeMatch ('_' :: ps) (c :: s) = likeMatch ps s := by
  simp [likeMatch]

theorem likeMatch_lit {p : Char} (h1 : p ≠ '%') (h2 : p ≠ '_') (ps : Str)
    (c : Char) (s : Str) :
    likeMatch (p :: ps) (c :: s) =
      ((Char.toLower p == Char.toLower c) && likeMatch ps s) := by
  simp [likeMatch, h1, h2]

theorem likeMatch_percent_iff (ps : Str) (s : Str) :
    likeMatch ('%' :: ps) s = true ↔ ∃ t, t <:+ s ∧ likeMatch ps t = true := by
  rw [likeMatch_percent, List.any_eq_true]
  constructor
  · rintro ⟨t, ht, hm⟩
    exact ⟨t, (List.mem_tails t s).1 ht, hm⟩
  · rintro ⟨t, ht, hm⟩
    exact ⟨t, (List.mem_tails t s).2 ht, hm⟩

theorem likeMatch_percent_nil (s : Str) : likeMatch ['%'] s = true := by
  rw [likeMatch_percent_iff]
  exact ⟨[], List.nil_suffix, rfl⟩

/-- Any pattern text matches itself (wildcards match their own literal
occurrence), followed by `%` for an arbitrary tail. -/
theorem likeMatch_self_append (q : Str) (b : Str) :
    likeMatch (q ++ ['%']) (q ++ b) = true := by
  induction q with
  | nil => exact likeMatch_percent_nil b
  | cons c q' ih =>
    by_cases h1 : c = '%'
    · subst h1
      rw [List.cons_append, likeMatch_percent_iff]
      exact ⟨q' ++ b, ⟨['%'], by simp⟩, ih⟩
    · by_cases h2 : c = '_'
      · subst h2
        rw [List.cons_append, List.cons_append, likeMatch_underscore]
        exact ih
      · rw [List.cons_append, List.cons_append, likeMatch_lit h1 h2]
        simp [ih]

/-- Characters free of the two `LIKE` wildcards. -/
def noWild (s : Str) : Bool := s.all (fun c => (c != '%') && (c != '_'))

/-- A wildcard-free pattern piece matches exactly a chunk that agrees with
it up to ASCII case. -/
theorem likeMatch_lit_intro {q m : Str} (hw : noWild q = true)
    (hci : lowerStr q = lowerStr m) (ps s : Str)
    (h : likeMatch ps s = true) : likeMatch (q ++ ps) (m ++ s) = true := by
  induction q generalizing m with
  | nil =>
    have : m = [] := by
      unfold lowerStr at hci
      simpa using (List.map_eq_nil_iff.mp hci.symm)
    subst this
    simpa using h
  | cons c q' ih =>
    unfold lowerStr at hci
    cases m with
    | nil => simp at hci
    | cons d m' =>
      simp only [List.map_cons, List.cons.injEq] at hci
      obtain ⟨hcd, hrest⟩ := hci
      unfold noWild at hw
      simp only [List.all_cons, Bool.and_eq_true, bne_iff_ne, ne_eq] at hw
      obtain ⟨⟨h1, h2⟩, hw'⟩ := hw
      rw [List.cons_append, List.cons_append, likeMatch_lit h1 h2]
      have := ih (by unfold noWild; simpa using hw') hrest
      simp [hcd, this]

/-- Conversely, whatever a wildcard-free pattern piece consumed agrees with
it up to ASCII case. -/
theorem likeMatch_lit_elim {q : Str} (hw : noWild q = true) (ps s : Str)
    (h : likeMatch (q ++ ps) s = true) :
    ∃ m t, s = m ++ t ∧ lowerStr m = lowerStr q ∧ likeMatch ps t = true := by
  induction q generalizing s with
  | nil => exact ⟨[], s, by simpa using h⟩
  | cons c q' ih =>
    unfold noWild at hw
    simp only [List.all_cons, Bool.and_eq_true, bne_iff_ne, ne_eq] at hw
    obtain ⟨⟨h1, h2⟩, hw'⟩ := hw
    cases s with
    | nil =>
      rw [List.cons_append, likeMatch_cons_nil h1] at h
      exact absurd h (by simp)
    | cons d s' =>
      rw [List.cons_append, likeMatch_lit h1 h2] at h
      simp only [Bool.and_eq_true, beq_iff_eq] at h
      obtain ⟨hcd, h⟩ := h
      obtain ⟨m, t, rfl, hm, ht⟩ := ih (by unfold noWild; simpa using hw') (s := s') h
      exact ⟨d :: m, t, rfl, by simp [lowerStr] at hm ⊢; exact ⟨hcd.symm, hm⟩, ht⟩

theorem toNat_ofNat_valid {n : Nat} (h : n < 55296) : (Char.ofNat n).toNat = n := by
  have hv : Nat.isValidChar n := Or.inl h
  rw [Char.ofNat, dif_pos hv]
  simp [Char.ofNatAux, Char.toNat, UInt32.toNat, BitVec.toNat_ofNatLt]

/-- ASCII case folding never produces or destroys a comma. -/
theorem toLower_eq_comma_iff (c : Char) : Char.toLower c = ',' ↔ c = ',' := by
  constructor
  · intro h
    unfold Char.toLower at h
    simp only at h
    by_cases hr : c.toNat ≥ 65 ∧ c.toNat ≤ 90
    · rw [if_pos hr] at h
      exfalso
      have h2 := congrArg Char.toNat h
      rw [toNat_ofNat_valid (by omega)] at h2
      have : (',' : Char).toNat = 44 := by decide
      omega
    · rwa [if_neg hr] at h
  · intro h
    subst h
    decide

/-! ### Comma-delimited token serialization

`SimpleContextualInsightRetrieval.add_insight` stores a token set as
`',' + ','.join(tokens) + ','` (empty string for the empty set), and
`_get_insights_by_entity` parses it back with `.strip(',')` followed by
`.split(',')`. -/

/-- `','.join ts ++ ","`: every token followed by a comma. -/
def joinC : List Str → Str
  | [] => []
  | t :: ts => t ++ ',' :: joinC ts

/-- The serialized token-set column value. -/
def entitiesStr (ts : List Str) : Str :=
  if ts.isEmpty then [] else ',' :: joinC ts

/-- `','.join ts` with no trailing comma. -/
def joinBody : List Str → Str
  | [] => []
  | [t] => t
  | t :: ts => t ++ ',' :: joinBody ts

/-- Python `s.split(',')`. -/
def splitComma : Str → List Str
  | [] => [[]]
  | c :: s =>
    if c = ',' then [] :: splitComma s
    else
      match splitComma s with
      | [] => [[c]]
      | t :: ts => (c :: t) :: ts

/-- Python `s.strip(',')`. -/
def stripCommas (s : Str) : Str :=
  ((s.dropWhile (fun c => c == ',')).reverse.dropWhile (fun c => c == ',')).reverse

/-- The row-to-set parsing done by `_get_insights_by_entity`. -/
def parseTokens (s : Str) : List Str :=
  let r := stripCommas s
  if r.isEmpty then [] else splitComma r

/-- Validity of a token set: tokens are nonempty and delimiter-free
(the spec requires that no valid token contains the delimiter). -/
def tokensOk (ts : List Str) : Bool :=
  ts.all (fun t => (!t.isEmpty) && (!t.contains ','))

theorem tokensOk_iff (ts : List Str) :
    tokensOk ts = true ↔ ∀ t ∈ ts, t ≠ [] ∧ (',' : Char) ∉ t := by
  simp [tokensOk, List.isEmpty_iff]

theorem joinC_eq_joinBody (t : Str) (ts : List Str) :
    joinC (t :: ts) = joinBody (t :: ts) ++ [','] := by
  induction ts generalizing t with
  | nil => simp [joinC, joinBody]
  | cons t' ts' ih =>
    show t ++ ',' :: joinC (t' :: ts') = (t ++ ',' :: joinBody (t' :: ts')) ++ [',']
    rw [ih t']
    simp

theorem joinBody_cons (t : Str) (ts : List Str) :
    ∃ u, joinBody (t :: ts) = t ++ u := by
  cases ts with
  | nil => exact ⟨[], by simp [joinBody]⟩
  | cons t' ts' => exact ⟨',' :: joinBody (t' :: ts'), rfl⟩

theorem joinBody_last (ts : List Str) (hne : ts ≠ [])
    (h : ∀ t ∈ ts, t ≠ [] ∧ (',' : Char) ∉ t) :
    ∃ r d, joinBody ts = r ++ [d] ∧ d ≠ ',' := by
  induction ts with
  | nil => exact absurd rfl hne
  | cons t ts' ih =>
    cases ts' with
    | nil =>
      obtain ⟨h1, h2⟩ := h t (by simp)
      refine ⟨t.dropLast, t.getLast h1, ?_, ?_⟩
      · show t = t.dropLast ++ [t.getLast h1]
        exact (List.dropLast_append_getLast h1).symm
      · intro he
        exact h2 (he ▸ List.getLast_mem h1)
    | cons t' ts'' =>
      obtain ⟨r, d, hr, hd⟩ := ih (by simp) (fun x hx => h x (by simp [hx]))
      refine ⟨t ++ ',' :: r, d, ?_, hd⟩
      show t ++ ',' :: joinBody (t' :: ts'') = (t ++ ',' :: r) ++ [d]
      rw [hr]
      simp

theorem splitComma_cons (c : Char) (s : Str) :
    splitComma (c :: s) =
      if c = ',' then [] :: splitComma s
      else
        match splitComma s with
        | [] => [[c]]
        | t :: ts => (c :: t) :: ts := rfl

theorem splitComma_no_comma (t : Str) (h : (',' : Char) ∉ t) :
    splitComma t = [t] := by
  induction t with
  | nil => rfl
  | cons c t' ih =>
    have hc : c ≠ ',' := fun he => h (by simp [he])
    have ht' : (',' : Char) ∉ t' := fun hm => h (by simp [hm])
    rw [splitComma_cons, if_neg hc, ih ht']

theorem splitComma_append (t rest : Str) (h : (',' : Char) ∉ t) :
    splitComma (t ++ ',' :: rest) = t :: splitComma rest := by
  induction t with
  | nil =>
    show splitComma (',' :: rest) = [] :: splitComma rest
    rw [splitComma_cons, if_pos rfl]
  | cons c t' ih =>
    have hc : c ≠ ',' := fun he => h (by simp [he])
    have ht' : (',' : Char) ∉ t' := fun hm => h (by simp [hm])
    show splitComma (c :: (t' ++ ',' :: rest)) = (c :: t') :: splitComma rest
    rw [splitComma_cons, if_neg hc, ih ht']

theorem splitComma_joinBody (ts : List Str) (hne : ts ≠ [])
    (h : ∀ t ∈ ts, t ≠ [] ∧ (',' : Char) ∉ t) :
    splitComma (joinBody ts) = ts := by
  induction ts with
  | nil => exact absurd rfl hne
  | cons t ts' ih =>
    cases ts' with
    | nil => exact splitComma_no_comma t (h t (by simp)).2
    | cons t' ts'' =>
      show splitComma (t ++ ',' :: joinBody (t' :: ts'')) = t :: t' :: ts''
      rw [splitComma_append _ _ (h t (by simp)).2,
        ih (by simp) (fun x hx => h x (by simp [hx]))]

theorem dropWhile_comma_cons (l : Str) :
    (',' :: l).dropWhile (fun c => c == ',') = l.dropWhile (fun c => c == ',') := by
  simp [List.dropWhile_cons]

theorem dropWhile_comma_cons_ne {c : Char} (hc : c ≠ ',') (l : Str) :
    (c :: l).dropWhile (fun c => c == ',') = c :: l := by
  simp [List.dropWhile_cons, hc]

theorem stripCommas_entitiesStr (ts : List Str)
    (h : ∀ t ∈ ts, t ≠ [] ∧ (',' : Char) ∉ t) (hne : ts ≠ []) :
    stripCommas (entitiesStr ts) = joinBody ts := by
  cases ts with
  | nil => exact absurd rfl hne
  | cons t ts' =>
    unfold entitiesStr
    rw [if_neg (by simp)]
    have hdrop : (',' :: joinC (t :: ts')).dropWhile (fun c => c == ',') =
        joinBody (t :: ts') ++ [','] := by
      rw [dropWhile_comma_cons, joinC_eq_joinBody]
      obtain ⟨u, hu⟩ := joinBody_cons t ts'
      obtain ⟨h1, h2⟩ := h t (by simp)
      cases t with
      | nil => exact absurd rfl h1
      | cons c t0 =>
        have hc : c ≠ ',' := fun he => h2 (by simp [he])
        rw [hu, List.cons_append, List.cons_append, dropWhile_comma_cons_ne hc]
    obtain ⟨r, d, hrd, hd⟩ := joinBody_last (t :: ts') (by simp) h
    unfold stripCommas
    rw [hdrop, hrd]
    have hrev : ((r ++ [d]) ++ [',']).reverse = ',' :: d :: r.reverse := by simp
    rw [hrev, dropWhile_comma_cons, dropWhile_comma_cons_ne hd]
    simp

theorem parseTokens_entitiesStr (ts : List Str) (h : tokensOk ts = true) :
    parseTokens (entitiesStr ts) = ts := by
  rw [tokensOk_iff] at h
  cases ts with
  | nil => rfl
  | cons t ts' =>
    unfold parseTokens
    rw [stripCommas_entitiesStr _ h (by simp)]
    obtain ⟨u, hu⟩ := joinBody_cons t ts'
    obtain ⟨h1, h2⟩ := h t (by simp)
    cases t with
    | nil => exact absurd rfl h1
    | cons c t0 =>
      rw [if_neg (by simp [hu])]
      exact splitComma_joinBody _ (by simp) h

theorem first_comma_eq : ∀ (t e u v : Str), (',' : Char) ∉ t → (',' : Char) ∉ e →
    t ++ ',' :: u = e ++ ',' :: v → t = e ∧ u = v := by
  intro t
  induction t with
  | nil =>
    intro e u v _ he heq
    cases e with
    | nil => simpa using heq
    | cons d e' =>
      simp only [List.nil_append, List.cons_append, List.cons.injEq] at heq
      exact absurd (heq.1 ▸ List.mem_cons_self d e') he
  | cons c t' ih =>
    intro e u v ht he heq
    cases e with
    | nil =>
      simp only [List.cons_append, List.nil_append, List.cons.injEq] at heq
      exact absurd (heq.1 ▸ List.mem_cons_self c t') ht
    | cons d e' =>
      simp only [List.cons_append, List.cons.injEq] at heq
      obtain ⟨hcd, heq'⟩ := heq
      have ht' : (',' : Char) ∉ t' := fun hm => ht (by simp [hm])
      have he' : (',' : Char) ∉ e' := fun hm => he (by simp [hm])
      obtain ⟨he2, hu⟩ := ih e' u v ht' he' heq'
      exact ⟨by rw [hcd, he2], hu⟩

theorem joinC_head_eq (ts : List Str) (h : ∀ t ∈ ts, (',' : Char) ∉ t)
    (m b : Str) (hm : (',' : Char) ∉ m)
    (heq : joinC ts = m ++ ',' :: b) : ∃ t ∈ ts, t = m := by
  cases ts with
  | nil => exact absurd heq (by simp [joinC])
  | cons u ts' =>
    have := first_comma_eq u m (joinC ts') b (h u (by simp)) hm heq
    exact ⟨u, by simp, this.1⟩

theorem extract_body : ∀ (ts : List Str), (∀ t ∈ ts, (',' : Char) ∉ t) →
    ∀ (m a b : Str), (',' : Char) ∉ m →
    joinC ts = a ++ ',' :: (m ++ ',' :: b) → ∃ t ∈ ts, t = m := by
  intro ts
  induction ts with
  | nil =>
    intro _ m a b _ heq
    exact absurd heq (by simp [joinC])
  | cons t ts' ih =>
    intro hts m a b hm heq
    have hts' : ∀ x ∈ ts', (',' : Char) ∉ x := fun x hx => hts x (by simp [hx])
    rw [show joinC (t :: ts') = t ++ ',' :: joinC ts' from rfl,
      List.append_eq_append_iff] at heq
    rcases heq with ⟨a', ha, hb⟩ | ⟨c', hc, hd⟩
    · cases a' with
      | nil =>
        rw [List.nil_append] at hb
        injection hb with _ hb2
        obtain ⟨x, hx, hxm⟩ := joinC_head_eq ts' hts' m b hm hb2
        exact ⟨x, by simp [hx], hxm⟩
      | cons c a'' =>
        rw [List.cons_append] at hb
        injection hb with _ hb2
        obtain ⟨x, hx, hxm⟩ := ih hts' m a'' b hm hb2
        exact ⟨x, by simp [hx], hxm⟩
    · cases c' with
      | nil =>
        rw [List.nil_append] at hd
        injection hd with _ hd2
        obtain ⟨x, hx, hxm⟩ := joinC_head_eq ts' hts' m b hm hd2.symm
        exact ⟨x, by simp [hx], hxm⟩
      | cons d c'' =>
        rw [List.cons_append] at hd
        injection hd with hd1 _
        have : d ∈ t := hc ▸ List.mem_append_right a (List.mem_cons_self d c'')
        exact absurd (hd1 ▸ this) (hts t (by simp))

theorem extract_token (ts : List Str) (hts : ∀ t ∈ ts, (',' : Char) ∉ t)
    (m a b : Str) (hm : (',' : Char) ∉ m)
    (heq : ',' :: joinC ts = a ++ ',' :: (m ++ ',' :: b)) : ∃ t ∈ ts, t = m := by
  cases a with
  | nil =>
    rw [List.nil_append] at heq
    injection heq with _ heq2
    exact joinC_head_eq ts hts m b hm heq2
  | cons c a' =>
    rw [List.cons_append] at heq
    injection heq with _ heq2
    exact extract_body ts hts m a' b hm heq2

/-! ### Characterizing the simple lookup pattern `%,entity,%` -/

/-- The `LIKE` pattern `f'%,{entity},%'` used by
`SimpleContextualInsightRetrieval._get_insights_by_entity`. -/
def entityPattern (name : Str) : Str := '%' :: ((',' :: (name ++ [','])) ++ ['%'])

theorem toLower_comma : Char.toLower ',' = ',' := by decide

theorem lower_cons_comma {m z : Str} (h : lowerStr m = ',' :: z) :
    ∃ m₁, m = ',' :: m₁ ∧ lowerStr m₁ = z := by
  cases m with
  | nil => simp [lowerStr] at h
  | cons d m₁ =>
    unfold lowerStr at h
    rw [List.map_cons] at h
    injection h with h1 h2
    exact ⟨m₁, by rw [(toLower_eq_comma_iff d).1 h1], h2⟩

theorem lower_snoc_comma {m y : Str} (h : lowerStr m = y ++ [',']) :
    ∃ m', m = m' ++ [','] ∧ lowerStr m' = y := by
  have hm : m ≠ [] := by
    intro he
    subst he
    simp [lowerStr] at h
  have hdec := List.dropLast_append_getLast hm
  have hsplit : lowerStr m = lowerStr m.dropLast ++ [Char.toLower (m.getLast hm)] := by
    conv_lhs => rw [← hdec]
    simp [lowerStr]
  rw [hsplit] at h
  obtain ⟨h1, h2⟩ := List.append_inj' h (by simp)
  injection h2 with h2' _
  refine ⟨m.dropLast, ?_, h1⟩
  have hlast : m.getLast hm = ',' := (toLower_eq_comma_iff _).1 h2'
  conv_lhs => rw [← hdec]
  rw [hlast]

theorem no_comma_of_lower {m' n : Str} (h : lowerStr m' = lowerStr n)
    (hn : (',' : Char) ∉ n) : (',' : Char) ∉ m' := by
  intro hc
  have hmem : (',' : Char) ∈ lowerStr m' := by
    have := List.mem_map_of_mem Char.toLower hc
    rwa [toLower_comma] at this
  rw [h] at hmem
  obtain ⟨c, hcn, hcl⟩ := List.mem_map.1 hmem
  exact hn (((toLower_eq_comma_iff c).1 hcl) ▸ hcn)

theorem noWild_wrap {name : Str} (h : noWild name = true) :
    noWild (',' :: (name ++ [','])) = true := by
  unfold noWild at *
  simp only [List.all_cons, List.all_append, Bool.and_eq_true] at *
  refine ⟨by decide, h, by decide⟩

theorem lower_wrap {x : Str} :
    lowerStr (',' :: (x ++ [','])) = ',' :: (lowerStr x ++ [',']) := by
  simp [lowerStr, toLower_comma]

/-- Forward direction: a `%,name,%` match against a serialized token set can
only come from a token that equals the name up to ASCII case. -/
theorem simple_like_forward (ts : List Str) (name : Str)
    (hts : ∀ t ∈ ts, t ≠ [] ∧ (',' : Char) ∉ t)
    (hw : noWild name = true) (hnc : (',' : Char) ∉ name)
    (h : likeMatch (entityPattern name) (entitiesStr ts) = true) :
    ∃ t ∈ ts, lowerStr t = lowerStr name := by
  cases ts with
  | nil =>
    exfalso
    rw [show entitiesStr [] = [] from rfl] at h
    rw [entityPattern, likeMatch_percent_iff] at h
    obtain ⟨t, hsuf, hm⟩ := h
    rw [List.suffix_nil.mp hsuf] at hm
    rw [show (',' :: (name ++ [','])) ++ ['%'] = ',' :: ((name ++ [',']) ++ ['%'])
      from rfl] at hm
    rw [likeMatch_cons_nil (by decide)] at hm
    exact absurd hm (by simp)
  | cons t0 ts'' =>
    rw [show entitiesStr (t0 :: ts'') = ',' :: joinC (t0 :: ts'') from by
      unfold entitiesStr; rw [if_neg (by simp)]] at h
    rw [entityPattern, likeMatch_percent_iff] at h
    obtain ⟨tt, hsuf, hm⟩ := h
    obtain ⟨a, ha⟩ := hsuf
    obtain ⟨m, t', htt, hlm, _⟩ :=
      likeMatch_lit_elim (noWild_wrap hw) ['%'] tt hm
    rw [lower_wrap] at hlm
    obtain ⟨m₁, hm₁, hl₁⟩ := lower_cons_comma hlm
    obtain ⟨m', hm', hl'⟩ := lower_snoc_comma hl₁
    have hnc' : (',' : Char) ∉ m' := no_comma_of_lower hl' hnc
    have heq : ',' :: joinC (t0 :: ts'') = a ++ ',' :: (m' ++ ',' :: t') := by
      rw [← ha, htt, hm₁, hm']
      simp
    obtain ⟨t, ht, rfl⟩ :=
      extract_token (t0 :: ts'') (fun x hx => (hts x hx).2) m' a t' hnc' heq
    exact ⟨t, ht, hl'⟩

/-- A decomposition of the serialized column around a chosen token. -/
theorem joinC_decomp (pre post : List Str) (e : Str) :
    ∃ a b, ',' :: joinC (pre ++ e :: post) = a ++ ((',' :: (e ++ [','])) ++ b) := by
  induction pre with
  | nil =>
    refine ⟨[], joinC post, ?_⟩
    show ',' :: joinC (e :: post) = [] ++ ((',' :: (e ++ [','])) ++ joinC post)
    simp [joinC]
  | cons t pre' ih =>
    obtain ⟨a, b, hab⟩ := ih
    refine ⟨(',' :: t) ++ a, b, ?_⟩
    calc ',' :: joinC (t :: (pre' ++ e :: post))
        = (',' :: t) ++ (',' :: joinC (pre' ++ e :: post)) := by simp [joinC]
      _ = (',' :: t) ++ (a ++ ((',' :: (e ++ [','])) ++ b)) := by rw [hab]
      _ = ((',' :: t) ++ a) ++ ((',' :: (e ++ [','])) ++ b) := by
          simp [List.append_assoc]

/-- Backward direction, exact-token form: a token that is literally present
always produces a match (whatever characters it contains). -/
theorem simple_like_of_mem (ts : List Str) (name : Str) (h : name ∈ ts) :
    likeMatch (entityPattern name) (entitiesStr ts) = true := by
  obtain ⟨pre, post, rfl⟩ := List.append_of_mem h
  rw [show entitiesStr (pre ++ name :: post) = ',' :: joinC (pre ++ name :: post)
    from by unfold entitiesStr; rw [if_neg (by simp)]]
  obtain ⟨a, b, hab⟩ := joinC_decomp pre post name
  rw [entityPattern, likeMatch_percent_iff]
  exact ⟨(',' :: (name ++ [','])) ++ b, ⟨a, hab.symm⟩, likeMatch_self_append _ b⟩

/-- Backward direction, case-insensitive form for wildcard-free names. -/
theorem simple_like_backward (ts : List Str) (name : Str)
    (hw : noWild name = true)
    (h : ∃ t ∈ ts, lowerStr t = lowerStr name) :
    likeMatch (entityPattern name) (entitiesStr ts) = true := by
  obtain ⟨tok, htok, hci⟩ := h
  obtain ⟨pre, post, rfl⟩ := List.append_of_mem htok
  rw [show entitiesStr (pre ++ tok :: post) = ',' :: joinC (pre ++ tok :: post)
    from by unfold entitiesStr; rw [if_neg (by simp)]]
  obtain ⟨a, b, hab⟩ := joinC_decomp pre post tok
  rw [entityPattern, likeMatch_percent_iff]
  refine ⟨(',' :: (tok ++ [','])) ++ b, ⟨a, hab.symm⟩, ?_⟩
  exact likeMatch_lit_intro (noWild_wrap hw)
    (by rw [lower_wrap, lower_wrap, hci]) ['%'] b (likeMatch_percent_nil b)


/-! ### Data model

The `Insight` dataclass and the `insights` table row, shared by
`insight_system_simple.py` and `insight_retrieval_system.py` (the latter adds
an `embedding` BLOB column that is written but never read back into the
parsed record, so it is omitted from the row model). -/

structure Insight where
  id : Str
  content : Str
  entities : List Str
  themes : List Str
  timestamp : Int
  effectiveness_score : Rat
  growth_stage : Str
  layer : Str
  insight_type : Str
  supersedes : List Str
  superseded_by : Option Str
  source_file : Str
  context : Str
deriving DecidableEq

structure Row where
  id : Str
  content : Str
  entities : Str
  themes : Str
  timestamp : Int
  effectiveness_score : Rat
  growth_stage : Str
  layer : Str
  insight_type : Str
  supersedes : Str
  superseded_by : Option Str
  source_file : Str
  context : Str
deriving DecidableEq

/-- Serialization performed by `SimpleContextualInsightRetrieval.add_insight`:
token sets become `',' + ','.join(xs) + ','` (or `''` when empty). -/
def toRowSimple (i : Insight) : Row :=
  { id := i.id
    content := i.content
    entities := entitiesStr i.entities
    themes := entitiesStr i.themes
    timestamp := i.timestamp
    effectiveness_score := i.effectiveness_score
    growth_stage := i.growth_stage
    layer := i.layer
    insight_type := i.insight_type
    supersedes := entitiesStr i.supersedes
    superseded_by := i.superseded_by
    source_file := i.source_file
    context := i.context }

/-- Row parsing performed by
`SimpleContextualInsightRetrieval._get_insights_by_entity`:
`.strip(',')` then `.split(',')` (empty set for an empty stripped string). -/
def fromRowSimple (r : Row) : Insight :=
  { id := r.id
    content := r.content
    entities := parseTokens r.entities
    themes := parseTokens r.themes
    timestamp := r.timestamp
    effectiveness_score := r.effectiveness_score
    growth_stage := r.growth_stage
    layer := r.layer
    insight_type := r.insight_type
    supersedes := parseTokens r.supersedes
    superseded_by := r.superseded_by
    source_file := r.source_file
    context := r.context }

/-- `INSERT OR REPLACE` on the `id TEXT PRIMARY KEY` column: any existing
row with the same id is deleted and the new row inserted. -/
def upsert (r : Row) (tbl : List Row) : List Row :=
  (tbl.filter (fun x => x.id != r.id)) ++ [r]

/-- `ORDER BY effectiveness_score DESC, timestamp DESC`. -/
def rowOrd (a b : Row) : Prop :=
  b.effectiveness_score < a.effectiveness_score ∨
    (a.effectiveness_score = b.effectiveness_score ∧ b.timestamp ≤ a.timestamp)

instance : DecidableRel rowOrd := fun a b => by
  unfold rowOrd
  infer_instance

/-- `SELECT * FROM insights WHERE entities LIKE '%,{entity},%' ORDER BY ...`
in the simple system, rows only. -/
def simpleLookupRows (name : Str) (tbl : List Row) : List Row :=
  List.insertionSort rowOrd
    (tbl.filter (fun r => likeMatch (entityPattern name) r.entities))

/-- The simple system's `_get_insights_by_entity`: query plus row parsing. -/
def simpleLookup (name : Str) (tbl : List Row) : List Insight :=
  (simpleLookupRows name tbl).map fromRowSimple

/-- The `LIKE` pattern `f'%{entity}%'` used by
`ContextualInsightRetrieval._get_insights_by_entity` (plain substring). -/
def fullEntityPattern (name : Str) : Str := '%' :: (name ++ ['%'])

/-- Row parsing in `insight_retrieval_system.py`: a bare `.split(',')`
without stripping (its writer stores `','.join(...)` without wrappers). -/
def fromRowFull (r : Row) : Insight :=
  { id := r.id
    content := r.content
    entities := if r.entities.isEmpty then [] else splitComma r.entities
    themes := if r.themes.isEmpty then [] else splitComma r.themes
    timestamp := r.timestamp
    effectiveness_score := r.effectiveness_score
    growth_stage := r.growth_stage
    layer := r.layer
    insight_type := r.insight_type
    supersedes := if r.supersedes.isEmpty then [] else splitComma r.supersedes
    superseded_by := r.superseded_by
    source_file := r.source_file
    context := r.context }

def fullLookupRows (name : Str) (tbl : List Row) : List Row :=
  List.insertionSort rowOrd
    (tbl.filter (fun r => likeMatch (fullEntityPattern name) r.entities))

/-- The full system's `_get_insights_by_entity`. -/
def fullLookup (name : Str) (tbl : List Row) : List Insight :=
  (fullLookupRows name tbl).map fromRowFull

/-! ### Round-trip and lookup theorems -/

theorem fromRow_toRow (i : Insight)
    (he : tokensOk i.entities = true) (hth : tokensOk i.themes = true)
    (hsu : tokensOk i.supersedes = true) :
    fromRowSimple (toRowSimple i) = i := by
  simp [fromRowSimple, toRowSimple, parseTokens_entitiesStr _ he,
    parseTokens_entitiesStr _ hth, parseTokens_entitiesStr _ hsu]

/-- C3: for every valid Insight (nonempty, delimiter-free tokens, as the
spec's token-validity requires), ingesting it and looking up any of its
entities returns a list containing the exact record: every field, including
the entity/theme/supersedes sets, the timestamp, provenance and the
effectiveness score, round-trips byte-for-byte. -/
theorem C3_roundtrip (tbl : List Row) (i : Insight) (e : Str)
    (hmem : e ∈ i.entities)
    (he : tokensOk i.entities = true) (hth : tokensOk i.themes = true)
    (hsu : tokensOk i.supersedes = true) :
    fromRowSimple (toRowSimple i) = i ∧
      i ∈ simpleLookup e (upsert (toRowSimple i) tbl) := by
  have hrt := fromRow_toRow i he hth hsu
  refine ⟨hrt, ?_⟩
  unfold simpleLookup simpleLookupRows
  rw [List.mem_map]
  refine ⟨toRowSimple i, ?_, hrt⟩
  rw [List.mem_insertionSort, List.mem_filter]
  exact ⟨List.mem_append_right _ (by simp), simple_like_of_mem i.entities e hmem⟩

def c3Insight : Insight :=
  { id := str "id-1"
    content := str "Taking trauma responses to therapy worked"
    entities := [str "partner_A", str "trauma_responses"]
    themes := [str "trust"]
    timestamp := 20000
    effectiveness_score := 1
    growth_stage := str "foundational"
    layer := str "surface"
    insight_type := str "strategy"
    supersedes := [str "id-0"]
    superseded_by := none
    source_file := str "conv.md"
    context := str "" }

/-- Witness for C3 at a concrete insight and entity. -/
theorem C3_roundtrip_witness :
    fromRowSimple (toRowSimple c3Insight) = c3Insight ∧
      c3Insight ∈ simpleLookup (str "partner_A")
        (upsert (toRowSimple c3Insight) []) :=
  C3_roundtrip [] c3Insight (str "partner_A") (by decide) (by decide)
    (by decide) (by decide)

/-- C2 (amended): in the simple system the lookup matches full
comma-delimited tokens — a stored insight appears in the result exactly when
one of its entity tokens equals the searched name up to ASCII case, provided
the name is free of commas and of the `LIKE` wildcards `%`/`_` (stored
tokens must be valid, i.e. nonempty and delimiter-free). -/
theorem C2_entity_lookup (store : List Insight) (i : Insight) (name : Str)
    (hmem : i ∈ store) (hok : tokensOk i.entities = true)
    (hw : noWild name = true) (hnc : (',' : Char) ∉ name) :
    toRowSimple i ∈ simpleLookupRows name (store.map toRowSimple) ↔
      ∃ t ∈ i.entities, lowerStr t = lowerStr name := by
  unfold simpleLookupRows
  rw [List.mem_insertionSort, List.mem_filter]
  constructor
  · rintro ⟨-, hlike⟩
    exact simple_like_forward i.entities name ((tokensOk_iff _).1 hok) hw hnc hlike
  · intro h
    exact ⟨List.mem_map_of_mem _ hmem,
      simple_like_backward i.entities name hw h⟩

def c2Insight : Insight :=
  { id := str "r9"
    content := str "tagged with AN only"
    entities := [str "AN"]
    themes := []
    timestamp := 0
    effectiveness_score := 1
    growth_stage := str "foundational"
    layer := str "surface"
    insight_type := str "observation"
    supersedes := []
    superseded_by := none
    source_file := []
    context := [] }

/-- Witness for C2's amended statement at a concrete store and name. -/
theorem C2_entity_lookup_witness :
    toRowSimple c2Insight ∈
        simpleLookupRows (str "N") ([c2Insight].map toRowSimple) ↔
      ∃ t ∈ c2Insight.entities, lowerStr t = lowerStr (str "N") :=
  C2_entity_lookup [c2Insight] c2Insight (str "N") (by decide) (by decide)
    (by decide) (by decide)

def rowAN : Row :=
  { id := str "r1"
    content := str "note about AN"
    entities := str "AN"
    themes := []
    timestamp := 0
    effectiveness_score := 0
    growth_stage := str "foundational"
    layer := str "surface"
    insight_type := str "observation"
    supersedes := []
    superseded_by := none
    source_file := []
    context := [] }

/-- C2 counterexample: the claim is false for the lookup in
`insight_retrieval_system.py`, which filters with the raw substring pattern
`LIKE '%N%'`: a record tagged only "AN" is returned when searching for the
entity "N", although its entity set does not contain "N". -/
theorem C2_entity_lookup_counterexample :
    fromRowFull rowAN ∈ fullLookup (str "N") [rowAN] ∧
      (fromRowFull rowAN).entities = [str "AN"] ∧
      str "N" ∉ (fromRowFull rowAN).entities := by decide

/-- C5: `INSERT OR REPLACE` under the `id` primary key replaces, never
duplicates: after two ingests with the same id and different content the
table holds exactly one row for that id, the first version is gone, and any
lookup result carrying that id shows the second content. -/
theorem C5_upsert (tbl : List Row) (i1 i2 : Insight) (e : Str)
    (hid : i1.id = i2.id) (hc : i1.content ≠ i2.content) :
    ((upsert (toRowSimple i2) (upsert (toRowSimple i1) tbl)).countP
        (fun r => r.id == i2.id) = 1) ∧
      toRowSimple i2 ∈ upsert (toRowSimple i2) (upsert (toRowSimple i1) tbl) ∧
      toRowSimple i1 ∉ upsert (toRowSimple i2) (upsert (toRowSimple i1) tbl) ∧
      ∀ ins ∈ simpleLookup e (upsert (toRowSimple i2) (upsert (toRowSimple i1) tbl)),
        ins.id = i2.id → ins.content = i2.content := by
  refine ⟨?_, ?_, ?_, ?_⟩
  · unfold upsert
    rw [List.countP_append]
    have hz : ((upsert (toRowSimple i1) tbl).filter
        (fun x => x.id != (toRowSimple i2).id)).countP
        (fun r => r.id == i2.id) = 0 := by
      rw [List.countP_eq_zero]
      intro a ha
      rw [List.mem_filter] at ha
      simp only [bne_iff_ne, ne_eq, decide_eq_true_eq] at ha
      simp only [beq_iff_eq]
      exact ha.2
    unfold upsert at hz
    rw [hz]
    simp [List.countP_cons, toRowSimple]
  · exact List.mem_append_right _ (by simp)
  · intro h
    rcases List.mem_append.1 h with h | h
    · rw [List.mem_filter] at h
      have := h.2
      simp only [bne_iff_ne, ne_eq, decide_eq_true_eq] at this
      exact this (show (toRowSimple i1).id = (toRowSimple i2).id from hid)
    · rw [List.mem_singleton] at h
      exact hc (congrArg Row.content h)
  · intro ins hins hid2
    unfold simpleLookup simpleLookupRows at hins
    rw [List.mem_map] at hins
    obtain ⟨r, hr, rfl⟩ := hins
    rw [List.mem_insertionSort, List.mem_filter] at hr
    rcases List.mem_append.1 hr.1 with h | h
    · rw [List.mem_filter] at h
      have := h.2
      simp only [bne_iff_ne, ne_eq, decide_eq_true_eq] at this
      exact absurd hid2 this
    · rw [List.mem_singleton] at h
      subst h
      rfl

def c5First : Insight :=
  { id := str "same-id"
    content := str "first version"
    entities := [str "partner_A"]
    themes := []
    timestamp := 0
    effectiveness_score := 0
    growth_stage := str "foundational"
    layer := str "surface"
    insight_type := str "observation"
    supersedes := []
    superseded_by := none
    source_file := []
    context := [] }

def c5Second : Insight :=
  { id := str "same-id"
    content := str "second version"
    entities := [str "partner_A"]
    themes := []
    timestamp := 1
    effectiveness_score := 1
    growth_stage := str "foundational"
    layer := str "surface"
    insight_type := str "observation"
    supersedes := []
    superseded_by := none
    source_file := []
    context := [] }

/-- Witness for C5 at two concrete same-id inserts. -/
theorem C5_upsert_witness :
    ((upsert (toRowSimple c5Second) (upsert (toRowSimple c5First) [])).countP
        (fun r => r.id == c5Second.id) = 1) ∧
      toRowSimple c5Second ∈
        upsert (toRowSimple c5Second) (upsert (toRowSimple c5First) []) ∧
      toRowSimple c5First ∉
        upsert (toRowSimple c5Second) (upsert (toRowSimple c5First) []) ∧
      ∀ ins ∈ simpleLookup (str "partner_A")
          (upsert (toRowSimple c5Second) (upsert (toRowSimple c5First) [])),
        ins.id = c5Second.id → ins.content = c5Second.content :=
  C5_upsert [] c5First c5Second (str "partner_A") (by decide) (by decide)

/-! ### Temporal weighting (`TemporalWeight`, `insight_retrieval_system.py`) -/

/-- `TemporalWeight.calculate_weight`: `days_diff = (current - insight).days`;
full weight within 30 days, then `max(0.1, exp(-0.02 * (days_diff - 30)))`. -/
noncomputable def calculate_weight (insight_date current_date : Int) : ℝ :=
  let days_diff := current_date - insight_date
  if days_diff ≤ 30 then 1
  else max 0.1 (Real.exp (-(0.02) * ((days_diff : ℝ) - 30)))

theorem calculate_weight_floor (t now : Int) :
    (0.1 : ℝ) ≤ calculate_weight t now := by
  unfold calculate_weight
  by_cases h : now - t ≤ 30
  · rw [if_pos h]
    norm_num
  · rw [if_neg h]
    exact le_max_left _ _

theorem calculate_weight_le_one (t now : Int) : calculate_weight t now ≤ 1 := by
  unfold calculate_weight
  by_cases h : now - t ≤ 30
  · rw [if_pos h]
  · rw [if_neg h]
    rw [not_le] at h
    refine max_le (by norm_num) ?_
    rw [Real.exp_le_one_iff]
    have hx : (0 : ℝ) ≤ ((now - t : Int) : ℝ) - 30 := by
      have : (30 : ℝ) < ((now - t : Int) : ℝ) := by exact_mod_cast h
      linarith
    nlinarith

theorem calculate_weight_mono (t n n' : Int) (h1 : 30 ≤ n - t)
    (h2 : n - t ≤ n' - t) : calculate_weight t n' ≤ calculate_weight t n := by
  unfold calculate_weight
  by_cases hb : n' - t ≤ 30
  · rw [if_pos hb, if_pos (le_trans h2 hb)]
  · rw [if_neg hb]
    rw [not_le] at hb
    by_cases ha : n - t ≤ 30
    · rw [if_pos ha]
      refine max_le (by norm_num) ?_
      rw [Real.exp_le_one_iff]
      have hx : (0 : ℝ) ≤ ((n' - t : Int) : ℝ) - 30 := by
        have : (30 : ℝ) < ((n' - t : Int) : ℝ) := by exact_mod_cast hb
        linarith
      nlinarith
    · rw [if_neg ha]
      refine max_le_max le_rfl (Real.exp_le_exp.2 ?_)
      have hc : ((n - t : Int) : ℝ) ≤ ((n' - t : Int) : ℝ) := by exact_mod_cast h2
      nlinarith

/-- C1: the temporal weight is 1 for ages up to 30 days; beyond 30 days it
equals `max(0.1, exp(-0.02 * (age - 30)))`; it is monotonically
non-increasing in age from 30 days on; and it never drops below the 0.1
floor. -/
theorem C1_temporal_weight :
    (∀ t now : Int, now - t ≤ 30 → calculate_weight t now = 1) ∧
    (∀ t now : Int, 30 < now - t →
      calculate_weight t now =
        max 0.1 (Real.exp (-(0.02) * (((now - t : Int) : ℝ) - 30)))) ∧
    (∀ t n n' : Int, 30 ≤ n - t → n - t ≤ n' - t →
      calculate_weight t n' ≤ calculate_weight t n) ∧
    (∀ t now : Int, (0.1 : ℝ) ≤ calculate_weight t now) := by
  refine ⟨?_, ?_, calculate_weight_mono, calculate_weight_floor⟩
  · intro t now h
    unfold calculate_weight
    rw [if_pos h]
  · intro t now h
    unfold calculate_weight
    rw [if_neg (not_le.2 h)]

/-- Witness for C1 at concrete ages 10, 40 and 100 days. -/
theorem C1_temporal_weight_witness :
    calculate_weight 0 10 = 1 ∧ calculate_weight 0 100 ≤ calculate_weight 0 40 :=
  ⟨C1_temporal_weight.1 0 10 (by norm_num),
    C1_temporal_weight.2.2.1 0 40 100 (by norm_num) (by norm_num)⟩

/-! ### Permanence markers (`TemporalWeight.is_bedrock_truth`) -/

def apos : Char := Char.ofNat 39

/-- The six `bedrock_patterns`; they contain no regex metacharacters, so
`re.search(p, content, re.IGNORECASE)` is a case-insensitive substring
test. -/
def bedrockPatterns : List Str :=
  [['X', apos, 's', ' ', 'v', 'o', 'i', 'c', 'e'],
   str "Crisis Anchor",
   str "foundational pattern",
   str "his word is enough",
   str "trauma response",
   str "core truth"]

def is_bedrock_truth (content : Str) : Bool :=
  bedrockPatterns.any (fun p => isSubstr (lowerStr p) (lowerStr content))

/-- The temporal score computed inside `retrieve_contextual_insights`:
the raw weight, boosted by 1.5 and capped at 1 for bedrock truths. -/
noncomputable def temporalScore (now : Int) (i : Insight) : ℝ :=
  let t := calculate_weight i.timestamp now
  if is_bedrock_truth i.content then min 1 (1.5 * t) else t

/-- C6: an insight matching a permanence marker gets temporal score
`min(1, 1.5 * T)`, and never scores below an otherwise-identical non-marked
insight of the same age. -/
theorem C6_permanence (now : Int) (i j : Insight)
    (hb : is_bedrock_truth i.content = true) :
    temporalScore now i = min 1 (1.5 * calculate_weight i.timestamp now) ∧
      (j.timestamp = i.timestamp → temporalScore now j ≤ temporalScore now i) := by
  constructor
  · unfold temporalScore
    rw [if_pos hb]
  · intro hts
    unfold temporalScore
    rw [if_pos hb, hts]
    by_cases hbj : is_bedrock_truth j.content
    · rw [if_pos hbj]
    · rw [if_neg hbj]
      have h1 := calculate_weight_le_one i.timestamp now
      have h2 := calculate_weight_floor i.timestamp now
      refine le_min h1 ?_
      nlinarith

def c6Marked : Insight :=
  { id := str "b1"
    content := str "This is core truth about safety"
    entities := [str "partner_A"]
    themes := []
    timestamp := 0
    effectiveness_score := 1
    growth_stage := str "foundational"
    layer := str "surface"
    insight_type := str "anchor"
    supersedes := []
    superseded_by := none
    source_file := []
    context := [] }

def c6Plain : Insight :=
  { id := str "b2"
    content := str "ordinary note"
    entities := [str "partner_A"]
    themes := []
    timestamp := 0
    effectiveness_score := 1
    growth_stage := str "foundational"
    layer := str "surface"
    insight_type := str "observation"
    supersedes := []
    superseded_by := none
    source_file := []
    context := [] }

/-- Witness for C6 at a concrete marked/unmarked pair of the same age. -/
theorem C6_permanence_witness :
    temporalScore 100 c6Marked =
        min 1 (1.5 * calculate_weight c6Marked.timestamp 100) ∧
      (c6Plain.timestamp = c6Marked.timestamp →
        temporalScore 100 c6Plain ≤ temporalScore 100 c6Marked) :=
  C6_permanence 100 c6Marked c6Plain (by decide)

/-! ### Entity canonicalization (`claude_memory_client.py`) -/

def ENTITY_MAPPING : List (Str × Str) :=
  [(str "A", str "partner_A"), (str "N", str "child_N"),
   (str "X", str "ex_X"), (str "beck", str "self_beck")]

def REVERSE_ENTITY_MAPPING : List (Str × Str) :=
  ENTITY_MAPPING.map (fun p => (p.2, p.1))

/-- Python `dict` membership/lookup over the two mapping tables. -/
def dictLookup (m : List (Str × Str)) (k : Str) : Option Str :=
  (m.find? (fun p => p.1 == k)).map (fun p => p.2)

/-- `normalize_entity`: descriptive names pass through, single-letter codes
map to descriptive names, anything else passes through. -/
def normalize_entity (e : Str) : Str :=
  if (dictLookup REVERSE_ENTITY_MAPPING e).isSome then e
  else
    match dictLookup ENTITY_MAPPING e with
    | some v => v
    | none => e

/-- `denormalize_entity`: `REVERSE_ENTITY_MAPPING.get(entity, entity)`. -/
def denormalize_entity (e : Str) : Str :=
  (dictLookup REVERSE_ENTITY_MAPPING e).getD e

/-- C9 counterexample: `denormalize` is not a full inverse of `normalize`:
on the descriptive name `partner_A`, `normalize` is the identity but
`denormalize` maps it to the single-letter code `A`. -/
theorem C9_normalize_counterexample :
    denormalize_entity (normalize_entity (str "partner_A")) = str "A" ∧
      str "A" ≠ str "partner_A" := by decide

/-- C9 (amended): `normalize` and `denormalize` are total pure functions
returning unmapped inputs unchanged, and `denormalize ∘ normalize` is the
identity on every input except the four canonical descriptive names, where
it returns the corresponding single-letter code instead. -/
theorem C9_normalize (e : Str) :
    (dictLookup ENTITY_MAPPING e = none →
      dictLookup REVERSE_ENTITY_MAPPING e = none → normalize_entity e = e) ∧
    (dictLookup REVERSE_ENTITY_MAPPING e = none → denormalize_entity e = e) ∧
    (dictLookup REVERSE_ENTITY_MAPPING e = none →
      denormalize_entity (normalize_entity e) = e) ∧
    (∀ v, dictLookup REVERSE_ENTITY_MAPPING e = some v →
      denormalize_entity (normalize_entity e) = v) := by
  refine ⟨?_, ?_, ?_, ?_⟩
  · intro hm hr
    unfold normalize_entity
    rw [hr, hm]
    rfl
  · intro hr
    unfold denormalize_entity
    rw [hr]
    rfl
  · intro hr
    unfold normalize_entity
    rw [hr]
    simp only [Option.isSome_none, Bool.false_eq_true, if_false]
    by_cases h1 : e = str "A"
    · subst h1; decide
    · by_cases h2 : e = str "N"
      · subst h2; decide
      · by_cases h3 : e = str "X"
        · subst h3; decide
        · by_cases h4 : e = str "beck"
          · subst h4; decide
          · have hm : dictLookup ENTITY_MAPPING e = none := by
              unfold dictLookup ENTITY_MAPPING
              rw [List.find?_cons_of_neg _ (by simpa using fun h => h1 h.symm),
                List.find?_cons_of_neg _ (by simpa using fun h => h2 h.symm),
                List.find?_cons_of_neg _ (by simpa using fun h => h3 h.symm),
                List.find?_cons_of_neg _ (by simpa using fun h => h4 h.symm)]
              rfl
            rw [hm]
            unfold denormalize_entity
            rw [hr]
            rfl
  · intro v hr
    unfold normalize_entity
    rw [hr]
    simp only [Option.isSome_some, if_true]
    unfold denormalize_entity
    rw [hr]
    rfl

/-- Witness for C9: identity round-trip on an unmapped name, and the
short-code result on a canonical descriptive name. -/
theorem C9_normalize_witness :
    denormalize_entity (normalize_entity (str "garden")) = str "garden" ∧
      denormalize_entity (normalize_entity (str "child_N")) = str "N" :=
  ⟨(C9_normalize (str "garden")).2.2.1 (by decide),
    (C9_normalize (str "child_N")).2.2.2 (str "N") (by decide)⟩

/-! ### Connection pool (`ConnectionPool`, `insight_system_simple.py`) -/

structure PoolState where
  pool_size : Nat
  idle : List Nat
  created_connections : Nat

inductive AcquireStep where
  | fromIdle (c : Nat) (rest : List Nat)
  | burstCreate
  | blockWait (timeoutSeconds : Rat)
deriving DecidableEq

/-- Branch structure of `ConnectionPool.get_connection`: a non-blocking
`get_nowait` against the idle queue first; on `Empty`, create a burst
connection while `created_connections < pool_size * 2`; otherwise block on
`self._pool.get(timeout=5.0)`. -/
def acquireBranch (s : PoolState) : AcquireStep :=
  match s.idle with
  | c :: rest => .fromIdle c rest
  | [] =>
    if s.created_connections < s.pool_size * 2 then .burstCreate
    else .blockWait 5

inductive PoolError where
  | queueEmptyTimeout
  | poolExhausted
deriving DecidableEq

/-- When the blocking `get(timeout=5.0)` times out, the stdlib `queue.Empty`
exception propagates out of `get_connection` unwrapped.  The
`PoolError.poolExhausted` constructor is modelled from the spec for
comparison; no such error type exists anywhere in the source. -/
def acquireTimeoutError : PoolError := .queueEmptyTimeout

/-- C8 counterexample: with the burst cap reached, acquisition blocks with
the 5 second timeout and the timeout failure is the generic `queue.Empty`,
not a typed `PoolExhausted` error. -/
theorem C8_pool_counterexample :
    acquireBranch ⟨5, [], 10⟩ = .blockWait 5 ∧
      acquireTimeoutError ≠ .poolExhausted := by decide

/-- C8 (amended): acquisition is non-blocking while an idle connection
exists; with no idle connection it creates burst connections only below the
2 × pool-size cap; at or beyond the cap it blocks with a 5-second timeout,
and on timeout the stdlib queue-empty error escapes (there is no typed
`PoolExhausted` error in the code). -/
theorem C8_pool (s : PoolState) :
    (∀ c rest, s.idle = c :: rest → acquireBranch s = .fromIdle c rest) ∧
    (s.idle = [] → s.created_connections < s.pool_size * 2 →
      acquireBranch s = .burstCreate) ∧
    (s.idle = [] → s.pool_size * 2 ≤ s.created_connections →
      acquireBranch s = .blockWait 5 ∧
        acquireTimeoutError = .queueEmptyTimeout) := by
  refine ⟨?_, ?_, ?_⟩
  · intro c rest h
    unfold acquireBranch
    rw [h]
  · intro h hlt
    unfold acquireBranch
    rw [h]
    simp [hlt]
  · intro h hge
    unfold acquireBranch
    rw [h]
    simp only
    rw [if_neg (by omega)]
    exact ⟨rfl, rfl⟩

/-- Witness for C8 at concrete pool states. -/
theorem C8_pool_witness :
    acquireBranch ⟨5, [7], 5⟩ = .fromIdle 7 [] ∧
      acquireBranch ⟨5, [], 9⟩ = .burstCreate ∧
      acquireBranch ⟨5, [], 10⟩ = .blockWait 5 :=
  ⟨(C8_pool ⟨5, [7], 5⟩).1 7 [] rfl,
    (C8_pool ⟨5, [], 9⟩).2.1 rfl (by decide),
    ((C8_pool ⟨5, [], 10⟩).2.2 rfl (by decide)).1⟩

/-! ### Semantic triggers and context detection -/

structure SemanticTrigger where
  entity : Str
  keywords : List Str
  max_surface_insights : Nat

/-- Trigger activation test shared by both systems:
`trigger.entity.lower() in user_lower or any(k in user_lower for k in keywords)`. -/
def trigActivated (t : SemanticTrigger) (userLower : Str) : Bool :=
  isSubstr (lowerStr t.entity) userLower ||
    t.keywords.any (fun k => isSubstr k userLower)

/-- `ContextualInsightRetrieval._initialize_triggers`
(`insight_retrieval_system.py`), in dict insertion order.  The unused
`priority_insights` / `context_patterns` fields are omitted. -/
def fullTriggers : List (Str × SemanticTrigger) :=
  [(str "A", ⟨str "A",
      [str "trust", str "relationship", str "trustworthy", str "lucky",
       str "word is enough"], 3⟩),
   (str "N", ⟨str "N",
      [str "boundaries", str "parenting", str "school", str "hygiene",
       str "anger", str "structure"], 3⟩),
   (str "X", ⟨str "X",
      [str "voice", str "trauma", str "inadequacy", str "scanning",
       ['X', apos, 's', ' ', 'v', 'o', 'i', 'c', 'e']], 2⟩),
   (str "trauma_responses", ⟨str "trauma_responses",
      [str "activation", str "triggered", str "nervous system",
       str "shutdown", str "scanning"], 3⟩)]

/-- `ContextualInsightRetrieval.detect_context_triggers`. -/
def detect_context_triggers (input : Str) : List Str :=
  (fullTriggers.filter (fun p => trigActivated p.2 (lowerStr input))).map
    (fun p => p.1)

/-- The six canonical triggers of
`SimpleContextualInsightRetrieval._initialize_triggers`, followed by the
four single-letter alias keys pointing at the same trigger records. -/
def partnerATrigger : SemanticTrigger :=
  ⟨str "partner_A",
    [str "trust", str "relationship", str "trustworthy", str "lucky",
     str "word is enough", str "partner", str "husband", str "A"], 3⟩

def childNTrigger : SemanticTrigger :=
  ⟨str "child_N",
    [str "boundaries", str "parenting", str "school", str "hygiene",
     str "anger", str "yells", str "swears", str "fights", str "silence",
     str "protective silence", str "loyalty", str "N", str "son",
     str "child", str "kid"], 3⟩

def exXTrigger : SemanticTrigger :=
  ⟨str "ex_X",
    [str "voice", str "trauma", str "inadequacy", str "scanning",
     str "contact", str "charming", str "reasonable", str "best behavior",
     str "performance", str "good dad", str "case", str "absent parent",
     str "X", str "ex"], 3⟩

def selfBeckTrigger : SemanticTrigger :=
  ⟨str "self_beck",
    [str "strategic sacrifice", str "court avoidance", str "moral certainty",
     str "strength", str "doing the right thing", str "protective parenting",
     str "beck", str "I", str "me", str "my"], 3⟩

def internalVoiceTrigger : SemanticTrigger :=
  ⟨str "internal_voice",
    [str "internal voice", str "sabotage", str "reality inversion",
     str "hurting", str "loving parent", str "boundaries",
     str "weaponization", str "love", str "voice in my head",
     str "self-talk"], 2⟩

def traumaResponsesTrigger : SemanticTrigger :=
  ⟨str "trauma_responses",
    [str "trauma", str "trauma responses", str "triggered",
     str "nervous system", str "danger", str "disproportionate responses",
     str "activation", str "ptsd"], 2⟩

def simpleTriggerPairs : List (Str × SemanticTrigger) :=
  [(str "partner_A", partnerATrigger),
   (str "child_N", childNTrigger),
   (str "ex_X", exXTrigger),
   (str "self_beck", selfBeckTrigger),
   (str "internal_voice", internalVoiceTrigger),
   (str "trauma_responses", traumaResponsesTrigger),
   (str "A", partnerATrigger),
   (str "N", childNTrigger),
   (str "X", exXTrigger),
   (str "beck", selfBeckTrigger)]

/-- Python string `<`: lexicographic comparison by code point. -/
def strLeB : Str → Str → Bool
  | [], _ => true
  | _ :: _, [] => false
  | a :: as, b :: bs => if a = b then strLeB as bs else decide (a < b)

def strLe (a b : Str) : Prop := strLeB a b = true

instance : DecidableRel strLe := fun a b => by
  unfold strLe
  infer_instance

/-- `SimpleContextualInsightRetrieval.detect_context_triggers`: collect the
canonical entity names of activated triggers into a set, return it sorted. -/
def simple_detect_context_triggers (input : Str) : List Str :=
  List.insertionSort strLe
    (((simpleTriggerPairs.filter
        (fun p => trigActivated p.2 (lowerStr input))).map
      (fun p => p.2.entity)).dedup)

/-! ### Scoring, deduplication, layering and retrieval -/

structure Scored where
  insight : Insight
  final_score : ℝ

/-- Scoring step of `retrieve_contextual_insights`:
`final_score = effectiveness_score * 0.5 + temporal_score * 0.5`. -/
noncomputable def scoreInsight (now : Int) (i : Insight) : Scored :=
  ⟨i, (i.effectiveness_score : ℝ) * 0.5 + temporalScore now i * 0.5⟩

/-- Descending comparison used by `scored_insights.sort(reverse=True)`. -/
def scoredGe (a b : Scored) : Prop := b.final_score ≤ a.final_score

noncomputable instance : DecidableRel scoredGe := fun a b =>
  Real.decidableLE _ _

instance : IsTotal Scored scoredGe :=
  ⟨fun a b => le_total b.final_score a.final_score⟩

instance : IsTrans Scored scoredGe :=
  ⟨fun _ _ _ hab hbc => le_trans hbc hab⟩

/-- `content_key = insight.content[:100]`. -/
def fingerprint (i : Insight) : Str := i.content.take 100

/-- The seen-set deduplication loop, keeping the first occurrence of each
key. -/
def dedupKeyed {α : Type} (key : α → Str) : List Str → List α → List α
  | _, [] => []
  | seen, x :: rest =>
    if key x ∈ seen then dedupKeyed key seen rest
    else x :: dedupKeyed key (key x :: seen) rest

/-- `categorize_by_layer` surface rule: anchor/breakthrough type, or
effectiveness above 0.7, or age under 30 days. -/
def isSurface (now : Int) (i : Insight) : Bool :=
  (i.insight_type == str "anchor") || (i.insight_type == str "breakthrough") ||
    decide ((7 : Rat)/10 < i.effectiveness_score) || decide (now - i.timestamp < 30)

/-- `categorize_by_layer` mid rule (tried when not surface):
effectiveness above 0.4, or age under 90 days. -/
def isMid (now : Int) (i : Insight) : Bool :=
  decide ((2 : Rat)/5 < i.effectiveness_score) || decide (now - i.timestamp < 90)

structure Tiers where
  surface : List Insight
  mid : List Insight
  deep : List Insight
deriving DecidableEq

/-- `LayeredArchitecture.categorize_by_layer` with `surface_limit = 3`,
`mid_limit = 8` and an untruncated deep tier. -/
def categorize_by_layer (now : Int) (l : List Insight) : Tiers :=
  ⟨(l.filter (fun i => isSurface now i)).take 3,
   (l.filter (fun i => !isSurface now i && isMid now i)).take 8,
   l.filter (fun i => !isSurface now i && !isMid now i)⟩

/-- `ContextualInsightRetrieval.retrieve_contextual_insights`: detect
triggers, look up each activated trigger's entity, score, sort descending,
deduplicate by content prefix, truncate to `max_insights`, then layer. -/
noncomputable def retrieve_contextual_insights (now : Int) (tbl : List Row)
    (input : Str) (max_insights : Nat) : Tiers :=
  if (fullTriggers.filter (fun p => trigActivated p.2 (lowerStr input))).isEmpty
  then ⟨[], [], []⟩
  else
    categorize_by_layer now
      (((dedupKeyed (fun s => fingerprint s.insight) []
          (List.insertionSort scoredGe
            (((fullTriggers.filter
                  (fun p => trigActivated p.2 (lowerStr input))).flatMap
                (fun p => fullLookup p.2.entity tbl)).map
              (scoreInsight now)))).take max_insights).map
        (fun s => s.insight))

/-- Descending comparison for the simple system's
`key=(effectiveness_score, -(now - timestamp).days), reverse=True`. -/
def simpleKeyGe (now : Int) (a b : Insight) : Prop :=
  b.effectiveness_score < a.effectiveness_score ∨
    (b.effectiveness_score = a.effectiveness_score ∧
      -(now - b.timestamp) ≤ -(now - a.timestamp))

instance (now : Int) : DecidableRel (simpleKeyGe now) := fun a b => by
  unfold simpleKeyGe
  infer_instance

/-- `SimpleContextualInsightRetrieval.retrieve_contextual_insights`:
detect, look up each trigger, deduplicate by id, sort, then bucket stored
layers with caps 3 / 5 / `max_insights`. -/
def simple_retrieve (now : Int) (tbl : List Row) (input : Str)
    (max_insights : Nat) : Tiers :=
  if (simple_detect_context_triggers input).isEmpty then ⟨[], [], []⟩
  else
    let sorted := List.insertionSort (simpleKeyGe now)
      (dedupKeyed Insight.id []
        ((simple_detect_context_triggers input).flatMap
          (fun name => simpleLookup name tbl)))
    ⟨(sorted.filter (fun i => i.layer == str "surface")).take 3,
     (sorted.filter (fun i => i.layer == str "mid")).take 5,
     (sorted.filter (fun i => i.layer == str "deep")).take max_insights⟩

/-! ### C4: no triggers means empty tiers -/

theorem toLower_eq_space_iff (c : Char) : Char.toLower c = ' ' ↔ c = ' ' := by
  constructor
  · intro h
    unfold Char.toLower at h
    simp only at h
    by_cases hr : c.toNat ≥ 65 ∧ c.toNat ≤ 90
    · rw [if_pos hr] at h
      exfalso
      have h2 := congrArg Char.toNat h
      rw [toNat_ofNat_valid (by omega)] at h2
      have : (' ' : Char).toNat = 32 := by decide
      omega
    · rwa [if_neg hr] at h
  · intro h
    subst h
    decide

theorem isSubstr_space_false {n h : Str} (hs : ∀ c ∈ h, c = ' ')
    (hn : n.any (fun c => c != ' ') = true) : isSubstr n h = false := by
  cases heq : isSubstr n h with
  | false => rfl
  | true =>
    exfalso
    obtain ⟨c, hc, hcn⟩ := List.any_eq_true.1 hn
    have hmem := mem_of_isSubstr heq c hc
    simp only [bne_iff_ne, ne_eq] at hcn
    exact hcn (hs c hmem)

theorem lowerStr_space {input : Str} (h : ∀ c ∈ input, c = ' ') :
    ∀ c ∈ lowerStr input, c = ' ' := by
  intro c hc
  obtain ⟨d, hd, rfl⟩ := List.mem_map.1 hc
  rw [h d hd]
  decide

/-- Every trigger of both tables has a non-space character in its entity
name and in each keyword. -/
def trigHasInk (t : SemanticTrigger) : Bool :=
  t.entity.any (fun c => c != ' ') &&
    t.keywords.all (fun k => k.any (fun c => c != ' '))

theorem lowerStr_has_ink {s : Str} (h : s.any (fun c => c != ' ') = true) :
    (lowerStr s).any (fun c => c != ' ') = true := by
  obtain ⟨c, hc, hcn⟩ := List.any_eq_true.1 h
  refine List.any_eq_true.2 ⟨Char.toLower c, List.mem_map_of_mem _ hc, ?_⟩
  simp only [bne_iff_ne, ne_eq] at *
  intro he
  exact hcn ((toLower_eq_space_iff c).1 he)

theorem trigActivated_space {t : SemanticTrigger} {ul : Str}
    (hul : ∀ c ∈ ul, c = ' ') (hink : trigHasInk t = true) :
    trigActivated t ul = false := by
  unfold trigActivated
  unfold trigHasInk at hink
  simp only [Bool.and_eq_true, List.all_eq_true] at hink
  rw [isSubstr_space_false hul (lowerStr_has_ink hink.1), Bool.false_or,
    List.any_eq_false]
  intro k hk
  rw [isSubstr_space_false hul (hink.2 k hk)]
  simp

theorem detect_full_space {input : Str} (h : ∀ c ∈ input, c = ' ') :
    detect_context_triggers input = [] := by
  unfold detect_context_triggers
  rw [List.map_eq_nil_iff, List.filter_eq_nil_iff]
  intro p hp
  have hall : fullTriggers.all (fun p => trigHasInk p.2) = true := by decide
  have hink := List.all_eq_true.1 hall p hp
  simp [trigActivated_space (lowerStr_space h) hink]

theorem detect_simple_space {input : Str} (h : ∀ c ∈ input, c = ' ') :
    simple_detect_context_triggers input = [] := by
  unfold simple_detect_context_triggers
  have hf : (simpleTriggerPairs.filter
      (fun p => trigActivated p.2 (lowerStr input))) = [] := by
    rw [List.filter_eq_nil_iff]
    intro p hp
    have hall : simpleTriggerPairs.all (fun p => trigHasInk p.2) = true := by
      decide
    have hink := List.all_eq_true.1 hall p hp
    simp [trigActivated_space (lowerStr_space h) hink]
  rw [hf]
  rfl

/-- C4 (amended): in both systems a query that activates zero triggers —
in particular any empty or all-whitespace query — yields all-empty tiers
with no error; the example query "The weather is nice today" activates zero
triggers in the simple system (in the full system it is not trigger-free,
see the counterexample). -/
theorem C4_no_trigger_empty :
    (∀ (now : Int) (tbl : List Row) (input : Str) (m : Nat),
        detect_context_triggers input = [] →
        retrieve_contextual_insights now tbl input m = ⟨[], [], []⟩) ∧
    (∀ (now : Int) (tbl : List Row) (input : Str) (m : Nat),
        simple_detect_context_triggers input = [] →
        simple_retrieve now tbl input m = ⟨[], [], []⟩) ∧
    (∀ input : Str, (∀ c ∈ input, c = ' ') →
        simple_detect_context_triggers input = [] ∧
        detect_context_triggers input = []) ∧
    simple_detect_context_triggers (str "The weather is nice today") = [] := by
  refine ⟨?_, ?_, ?_, by decide⟩
  · intro now tbl input m h
    have hf : (fullTriggers.filter
        (fun p => trigActivated p.2 (lowerStr input))) = [] := by
      unfold detect_context_triggers at h
      exact List.map_eq_nil_iff.1 h
    unfold retrieve_contextual_insights
    rw [hf]
    rfl
  · intro now tbl input m h
    unfold simple_retrieve
    rw [h]
    rfl
  · intro input h
    exact ⟨detect_simple_space h, detect_full_space h⟩

/-- C4 counterexample: in `insight_retrieval_system.py` the single-letter
trigger entities match as substrings after lowercasing, so the example
query "The weather is nice today" activates the triggers "A" (in
"weather") and "N" (in "nice") instead of zero triggers. -/
theorem C4_counterexample :
    detect_context_triggers (str "The weather is nice today") =
        [str "A", str "N"] ∧
      detect_context_triggers (str "The weather is nice today") ≠ [] := by
  decide

/-- Witness for C4 at concrete trigger-free and whitespace queries. -/
theorem C4_no_trigger_empty_witness :
    retrieve_contextual_insights 0 [] (str "zzz") 5 = ⟨[], [], []⟩ ∧
      simple_retrieve 0 [] (str "zzz") 5 = ⟨[], [], []⟩ ∧
      (simple_detect_context_triggers (str "  ") = [] ∧
        detect_context_triggers (str "  ") = []) :=
  ⟨C4_no_trigger_empty.1 0 [] (str "zzz") 5 (by decide),
    C4_no_trigger_empty.2.1 0 [] (str "zzz") 5 (by decide),
    C4_no_trigger_empty.2.2.1 (str "  ") (by decide)⟩

/-! ### C7 / C10: deduplication and truncation -/

theorem dedupKeyed_subset {α : Type} (key : α → Str) :
    ∀ (seen : List Str) (l : List α) (x : α),
      x ∈ dedupKeyed key seen l → x ∈ l := by
  intro seen l
  induction l generalizing seen with
  | nil => intro x hx; simp [dedupKeyed] at hx
  | cons z rest ih =>
    intro x hx
    unfold dedupKeyed at hx
    by_cases hz : key z ∈ seen
    · rw [if_pos hz] at hx
      exact List.mem_cons_of_mem z (ih seen x hx)
    · rw [if_neg hz] at hx
      rcases List.mem_cons.1 hx with rfl | hx'
      · exact List.mem_cons_self _ _
      · exact List.mem_cons_of_mem z (ih _ x hx')

theorem dedupKeyed_not_seen {α : Type} (key : α → Str) :
    ∀ (seen : List Str) (l : List α) (x : α),
      x ∈ dedupKeyed key seen l → key x ∉ seen := by
  intro seen l
  induction l generalizing seen with
  | nil => intro x hx; simp [dedupKeyed] at hx
  | cons z rest ih =>
    intro x hx
    unfold dedupKeyed at hx
    by_cases hz : key z ∈ seen
    · rw [if_pos hz] at hx
      exact ih seen x hx
    · rw [if_neg hz] at hx
      rcases List.mem_cons.1 hx with rfl | hx'
      · exact hz
      · intro hmem
        exact ih _ x hx' (List.mem_cons_of_mem _ hmem)

theorem dedupKeyed_pairwise {α : Type} (key : α → Str) :
    ∀ (seen : List Str) (l : List α),
      (dedupKeyed key seen l).Pairwise (fun a b => key a ≠ key b) := by
  intro seen l
  induction l generalizing seen with
  | nil => simp [dedupKeyed]
  | cons z rest ih =>
    unfold dedupKeyed
    by_cases hz : key z ∈ seen
    · rw [if_pos hz]
      exact ih seen
    · rw [if_neg hz]
      refine List.Pairwise.cons ?_ (ih _)
      intro y hy he
      exact dedupKeyed_not_seen key _ _ y hy (by rw [← he]; exact List.mem_cons_self _ _)

theorem dedupKeyed_best {α : Type} (key : α → Str) (score : α → ℝ) :
    ∀ (l : List α) (seen : List Str),
      l.Pairwise (fun a b => score b ≤ score a) →
      ∀ x ∈ l, key x ∉ seen →
      ∃ y ∈ dedupKeyed key seen l, key y = key x ∧ score x ≤ score y := by
  intro l
  induction l with
  | nil => intro seen _ x hx; simp at hx
  | cons z rest ih =>
    intro seen hp x hx hseen
    rw [List.pairwise_cons] at hp
    obtain ⟨hz, hrest⟩ := hp
    unfold dedupKeyed
    by_cases hzs : key z ∈ seen
    · rw [if_pos hzs]
      rcases List.mem_cons.1 hx with rfl | hx'
      · exact absurd hzs hseen
      · exact ih seen hrest x hx' hseen
    · rw [if_neg hzs]
      rcases List.mem_cons.1 hx with rfl | hx'
      · exact ⟨x, List.mem_cons_self _ _, rfl, le_refl _⟩
      · by_cases hk : key x = key z
        · exact ⟨z, List.mem_cons_self _ _, hk.symm, hz x hx'⟩
        · obtain ⟨y, hy, hky, hsy⟩ := ih (key z :: seen) hrest x hx' (by
            intro hmem
            rcases List.mem_cons.1 hmem with h | h
            · exact hk h
            · exact hseen h)
          exact ⟨y, List.mem_cons_of_mem z hy, hky, hsy⟩

/-- The sort-then-deduplicate stage of `retrieve_contextual_insights`. -/
noncomputable def dedup_stage (l : List Scored) : List Scored :=
  dedupKeyed (fun s => fingerprint s.insight) [] (List.insertionSort scoredGe l)

/-- The three-way filter split of `categorize_by_layer` is a permutation of
its input. -/
theorem categorize_partition_perm (now : Int) (u : List Insight) :
    List.Perm
      ((u.filter fun i => isSurface now i) ++
        ((u.filter fun i => !isSurface now i && isMid now i) ++
         (u.filter fun i => !isSurface now i && !isMid now i))) u := by
  have hmid : u.filter (fun i => !isSurface now i && isMid now i)
      = (u.filter (fun i => !isSurface now i)).filter (fun i => isMid now i) := by
    rw [List.filter_filter]
    exact List.filter_congr (fun a _ => Bool.and_comm _ _)
  have hdeep : u.filter (fun i => !isSurface now i && !isMid now i)
      = (u.filter (fun i => !isSurface now i)).filter (fun i => !isMid now i) := by
    rw [List.filter_filter]
    exact List.filter_congr (fun a _ => Bool.and_comm _ _)
  rw [hmid, hdeep]
  have h1 := List.filter_append_perm (fun i => isMid now i)
    (u.filter (fun i => !isSurface now i))
  have h2 := List.Perm.append_left (u.filter fun i => isSurface now i) h1
  have h3 := List.filter_append_perm (fun i => isSurface now i) u
  exact h2.trans h3

theorem categorize_pairwise {R : Insight → Insight → Prop}
    (hR : ∀ {x y : Insight}, R x y → R y x) (now : Int) (u : List Insight)
    (hu : u.Pairwise R) :
    ((categorize_by_layer now u).surface ++
      ((categorize_by_layer now u).mid ++
       (categorize_by_layer now u).deep)).Pairwise R := by
  have hall : ((u.filter fun i => isSurface now i) ++
      ((u.filter fun i => !isSurface now i && isMid now i) ++
       (u.filter fun i => !isSurface now i && !isMid now i))).Pairwise R :=
    ((categorize_partition_perm now u).pairwise_iff hR).2 hu
  refine List.Pairwise.sublist ?_ hall
  exact List.Sublist.append (List.take_sublist _ _)
    (List.Sublist.append (List.take_sublist _ _) (List.Sublist.refl _))

/-- C7: in the sort-then-deduplicate stage applied to any scored candidate
list, output fingerprints are pairwise distinct (two records sharing a
fingerprint collapse to one), every surviving record comes from the input,
each input record is represented by a surviving record with the same
fingerprint and a score at least as high, and the final retrieval output
keeps fingerprints pairwise distinct across all three tiers. -/
theorem C7_dedup :
    (∀ l : List Scored, (dedup_stage l).Pairwise
        (fun a b => fingerprint a.insight ≠ fingerprint b.insight)) ∧
    (∀ l : List Scored, ∀ x ∈ dedup_stage l, x ∈ l) ∧
    (∀ (l : List Scored) (x : Scored), x ∈ l →
        ∃ y ∈ dedup_stage l, fingerprint y.insight = fingerprint x.insight ∧
          x.final_score ≤ y.final_score) ∧
    (∀ (now : Int) (tbl : List Row) (input : Str) (m : Nat),
        ((retrieve_contextual_insights now tbl input m).surface ++
          ((retrieve_contextual_insights now tbl input m).mid ++
           (retrieve_contextual_insights now tbl input m).deep)).Pairwise
          (fun a b => fingerprint a ≠ fingerprint b)) := by
  refine ⟨?_, ?_, ?_, ?_⟩
  · intro l
    exact dedupKeyed_pairwise _ _ _
  · intro l x hx
    have := dedupKeyed_subset _ _ _ _ hx
    rwa [List.mem_insertionSort] at this
  · intro l x hx
    have hsorted : (List.insertionSort scoredGe l).Pairwise
        (fun a b : Scored => b.final_score ≤ a.final_score) :=
      List.sorted_insertionSort scoredGe l
    exact dedupKeyed_best (fun s => fingerprint s.insight)
      (fun s => s.final_score) _ [] hsorted x
      ((List.mem_insertionSort _).2 hx) (by simp)
  · intro now tbl input m
    unfold retrieve_contextual_insights
    by_cases hempty :
      (fullTriggers.filter (fun p => trigActivated p.2 (lowerStr input))).isEmpty
    · rw [if_pos hempty]
      simp
    · rw [if_neg hempty]
      apply categorize_pairwise (fun h => Ne.symm h)
      rw [List.pairwise_map]
      exact List.Pairwise.sublist (List.take_sublist _ _)
        (dedupKeyed_pairwise _ _ _)

def c7Insight : Insight :=
  { id := str "d1"
    content := str "a repeated insight body"
    entities := [str "partner_A"]
    themes := []
    timestamp := 0
    effectiveness_score := 1
    growth_stage := str "foundational"
    layer := str "surface"
    insight_type := str "observation"
    supersedes := []
    superseded_by := none
    source_file := []
    context := [] }

noncomputable def c7Scored : Scored := ⟨c7Insight, 1⟩

/-- Witness for C7's survivor property at a concrete scored list. -/
theorem C7_dedup_witness :
    ∃ y ∈ dedup_stage [c7Scored],
      fingerprint y.insight = fingerprint c7Scored.insight ∧
        c7Scored.final_score ≤ y.final_score :=
  C7_dedup.2.2.1 [c7Scored] c7Scored (by simp)

/-- C10: the deduplicated candidate list is truncated to `max_insights`
before tier assignment, so the three tiers together never hold more than
`max_insights` insights; in particular the mid tier can never exceed
`max_insights` regardless of its nominal cap of 8. -/
theorem C10_truncation (now : Int) (tbl : List Row) (input : Str) (m : Nat) :
    (retrieve_contextual_insights now tbl input m).surface.length +
        (retrieve_contextual_insights now tbl input m).mid.length +
        (retrieve_contextual_insights now tbl input m).deep.length ≤ m ∧
      (retrieve_contextual_insights now tbl input m).mid.length ≤ m := by
  have key : ∀ u : List Insight, u.length ≤ m →
      (categorize_by_layer now u).surface.length +
        (categorize_by_layer now u).mid.length +
        (categorize_by_layer now u).deep.length ≤ m := by
    intro u hu
    have hperm := (categorize_partition_perm now u).length_eq
    simp only [List.length_append] at hperm
    unfold categorize_by_layer
    simp only
    have h1 : ((u.filter fun i => isSurface now i).take 3).length ≤
        (u.filter fun i => isSurface now i).length := by
      rw [List.length_take]
      exact min_le_right _ _
    have h2 : ((u.filter fun i => !isSurface now i && isMid now i).take 8).length ≤
        (u.filter fun i => !isSurface now i && isMid now i).length := by
      rw [List.length_take]
      exact min_le_right _ _
    omega
  have htot : (retrieve_contextual_insights now tbl input m).surface.length +
      (retrieve_contextual_insights now tbl input m).mid.length +
      (retrieve_contextual_insights now tbl input m).deep.length ≤ m := by
    unfold retrieve_contextual_insights
    by_cases hempty :
      (fullTriggers.filter (fun p => trigActivated p.2 (lowerStr input))).isEmpty
    · rw [if_pos hempty]
      simp
    · rw [if_neg hempty]
      apply key
      rw [List.length_map, List.length_take]
      exact min_le_left _ _
  exact ⟨htot, by omega⟩
